import Mathlib

/-!
# Verification of the hypercore storage core

A shallow embedding of `src/lib.rs` and `src/storage/mod.rs`: the `Storage`
engine over four byte-store regions (Tree, Data, Bitfield, Signatures), the
offset-computation algorithm `data_offset`, and the `Feed` append/get
orchestration. Components of the crate whose sources are not available
(the `Node` codec, the Merkle accumulator, the flat-tree indexer, the
region headers and the random-access byte store) are modelled from the
specification, each marked `Modelled from the spec:` in its doc comment.
Bytes are modelled as natural numbers; machine-integer overflow is
irrelevant at the sizes involved (all lengths are `usize` additions that
the code assumes do not overflow).
-/

namespace Hypercore

/-! ## Byte-store capability

Modelled from the spec: the random-access byte store exposes
`read(offset, length) -> bytes`, failing if the range is not yet written,
and `write(offset, bytes)`, extending the store if writing past the
current end (gaps are zero-filled). One instance per region. -/

/-- Modelled from the spec: `write(offset, bytes)` on a random-access byte
store; overwrites in place and extends the store (zero-filling any gap)
when writing past the current end. -/
def writeBytes (store : List Nat) (offset : Nat) (data : List Nat) : List Nat :=
  (List.range (max store.length (offset + data.length))).map fun i =>
    if offset ≤ i ∧ i < offset + data.length then data.getD (i - offset) 0
    else store.getD i 0

/-- Modelled from the spec: `read(offset, length)` on a random-access byte
store; fails when the requested range extends past the written end. -/
def readBytes (store : List Nat) (offset len : Nat) : Option (List Nat) :=
  if offset + len ≤ store.length then some ((store.drop offset).take len)
  else none

theorem length_writeBytes (store : List Nat) (offset : Nat) (data : List Nat) :
    (writeBytes store offset data).length = max store.length (offset + data.length) := by
  simp [writeBytes]

theorem getElem_writeBytes (store : List Nat) (offset : Nat) (data : List Nat)
    (j : Nat) (h : j < (writeBytes store offset data).length) :
    (writeBytes store offset data)[j] =
      if offset ≤ j ∧ j < offset + data.length then data.getD (j - offset) 0
      else store.getD j 0 := by
  simp [writeBytes]

/-- Reading back exactly the range just written returns the written bytes. -/
theorem readBytes_writeBytes (store : List Nat) (offset : Nat) (data : List Nat) :
    readBytes (writeBytes store offset data) offset data.length = some data := by
  have hlen : (writeBytes store offset data).length = max store.length (offset + data.length) :=
    length_writeBytes store offset data
  have hle : offset + data.length ≤ (writeBytes store offset data).length := by
    rw [hlen]; exact le_max_right _ _
  unfold readBytes
  rw [if_pos hle]
  congr 1
  apply List.ext_getElem
  · simp only [List.length_take, List.length_drop]
    omega
  · intro i h1 h2
    have hi : offset + i < (writeBytes store offset data).length := by
      simp only [List.length_take, List.length_drop] at h1
      omega
    rw [List.getElem_take, List.getElem_drop, getElem_writeBytes store offset data _ hi]
    have hcond : offset ≤ offset + i ∧ offset + i < offset + data.length := by omega
    rw [if_pos hcond]
    simp only [Nat.add_sub_cancel_left]
    exact List.getD_eq_getElem data 0 h2

/-- A second write of the same bytes at the same offset changes nothing. -/
theorem writeBytes_idem (store : List Nat) (offset : Nat) (data : List Nat) :
    writeBytes (writeBytes store offset data) offset data = writeBytes store offset data := by
  apply List.ext_getElem
  · simp only [length_writeBytes]
    omega
  · intro j h1 h2
    rw [getElem_writeBytes _ _ _ _ h1, getElem_writeBytes _ _ _ _ h2]
    by_cases hc : offset ≤ j ∧ j < offset + data.length
    · rw [if_pos hc, if_pos hc]
    · rw [if_neg hc, if_neg hc]
      have hj2 : j < (writeBytes store offset data).length := h2
      rw [List.getD_eq_getElem _ 0 hj2, getElem_writeBytes _ _ _ _ hj2, if_neg hc]

/-- Positions outside the written range keep their previous value. -/
theorem getD_writeBytes_outside (store : List Nat) (offset : Nat) (data : List Nat)
    (j : Nat) (hj : j < offset ∨ offset + data.length ≤ j) :
    (writeBytes store offset data).getD j 0 = store.getD j 0 := by
  by_cases h : j < (writeBytes store offset data).length
  · rw [List.getD_eq_getElem _ 0 h, getElem_writeBytes _ _ _ _ h, if_neg (by omega)]
  · rw [List.getD_eq_default _ 0 (by omega)]
    have : store.length ≤ j := by
      have := length_writeBytes store offset data
      omega
    rw [List.getD_eq_default _ 0 this]

/-! ## Nodes and their fixed-size codec -/

/-- Modelled from the spec: a `Node` (`src/storage/node.rs` is not in the
sources) — one vertex of the binary Merkle tree: flat-tree `index`, byte
span `length` and fixed-size `hash` digest. -/
structure Node where
  index : Nat
  length : Nat
  hash : List Nat
deriving DecidableEq, Repr

/-- Source `Node::len()` (the byte span of the node). -/
def Node.len (n : Node) : Nat := n.length

/-- Big-endian base-256 encoding of `n` into `k` bytes. -/
def encodeBE : Nat → Nat → List Nat
  | 0, _ => []
  | k + 1, n => (n / 256 ^ k) :: encodeBE k (n % 256 ^ k)

/-- Big-endian base-256 decoding. -/
def decodeBE (l : List Nat) : Nat := l.foldl (fun acc b => acc * 256 + b) 0

theorem length_encodeBE (k n : Nat) : (encodeBE k n).length = k := by
  induction k generalizing n with
  | zero => rfl
  | succ k ih => simp [encodeBE, ih]

theorem foldl_encodeBE (k n acc : Nat) (h : n < 256 ^ k) :
    (encodeBE k n).foldl (fun acc b => acc * 256 + b) acc = acc * 256 ^ k + n := by
  induction k generalizing n acc with
  | zero =>
    simp [encodeBE]
    omega
  | succ k ih =>
    simp only [encodeBE, List.foldl_cons]
    rw [ih _ _ (Nat.mod_lt _ (Nat.pos_pow_of_pos k (by omega)))]
    have hmod := Nat.div_add_mod n (256 ^ k)
    have : 256 ^ (k + 1) = 256 ^ k * 256 := by ring
    rw [this]
    nlinarith [hmod]

theorem decodeBE_encodeBE (k n : Nat) (h : n < 256 ^ k) :
    decodeBE (encodeBE k n) = n := by
  unfold decodeBE
  rw [foldl_encodeBE k n 0 h]
  omega

/-- Modelled from the spec: `Node::to_vec` — the fixed-size 40-byte Tree
record encoding `{length, hash}`: the 32-byte digest then the span length
as 8 bytes. -/
def nodeToVec (n : Node) : List Nat := n.hash ++ encodeBE 8 n.length

/-- Modelled from the spec: `Node::from_vec` — decodes a Tree record,
failing with a decode error if the stored bytes are structurally invalid
(wrong size). -/
def nodeFromVec (index : Nat) (buf : List Nat) : Option Node :=
  if buf.length = 40 then
    some ⟨index, decodeBE (buf.drop 32), buf.take 32⟩
  else none

theorem length_nodeToVec (n : Node) (hh : n.hash.length = 32) :
    (nodeToVec n).length = 40 := by
  simp [nodeToVec, length_encodeBE, hh]

theorem nodeFromVec_nodeToVec (n : Node) (hh : n.hash.length = 32)
    (hl : n.length < 2 ^ 64) :
    nodeFromVec n.index (nodeToVec n) = some n := by
  unfold nodeFromVec
  rw [if_pos (length_nodeToVec n hh)]
  have hdrop : (nodeToVec n).drop 32 = encodeBE 8 n.length := by
    unfold nodeToVec
    rw [show (32 : Nat) = n.hash.length from hh.symm, List.drop_left]
  have htake : (nodeToVec n).take 32 = n.hash := by
    unfold nodeToVec
    rw [show (32 : Nat) = n.hash.length from hh.symm, List.take_left]
  rw [hdrop, htake, decodeBE_encodeBE 8 n.length (by norm_num at hl ⊢; omega)]

/-! ## Flat-tree indexer

Modelled from the spec: the external `flat_tree` crate — pure arithmetic
on the implicit binary tree where leaves occupy even indices. -/

/-- Fuel-driven floor of log base 2 (structural so that it evaluates by
kernel reduction). -/
def log2fuel : Nat → Nat → Nat
  | 0, _ => 0
  | fuel + 1, n => if 2 ≤ n then log2fuel fuel (n / 2) + 1 else 0

/-- Modelled from the spec: `full_roots(tree_size)` — the largest
power-of-two-subtrees-first decomposition of a span of `tree_size / 2`
leaves into maximal complete-subtree roots, left to right. The fuel is the
remaining leaf count, which strictly decreases. -/
def fullRootsAux : Nat → Nat → Nat → List Nat
  | _, 0, _ => []
  | 0, _ + 1, _ => []
  | fuel + 1, t + 1, offset =>
    let factor := 2 ^ log2fuel (t + 1) (t + 1)
    (offset + factor - 1) :: fullRootsAux fuel (t + 1 - factor) (offset + 2 * factor)

/-- Modelled from the spec: `flat_tree::full_roots(2 * index)`. -/
def full_roots (tree_size : Nat) : List Nat :=
  fullRootsAux (tree_size / 2) (tree_size / 2) 0

/-- Modelled from the spec: flat-tree `depth` — the number of trailing one
bits of the index (fuel-driven for kernel evaluation). -/
def depthAux : Nat → Nat → Nat
  | 0, _ => 0
  | fuel + 1, i => if i % 2 = 1 then depthAux fuel (i / 2) + 1 else 0

/-- Modelled from the spec: flat-tree `depth` of a node index. -/
def depth (i : Nat) : Nat := depthAux (i + 1) i

/-- Modelled from the spec: flat-tree `parent` of a node index. -/
def flatParent (i : Nat) : Nat :=
  let d := depth i
  i / 2 ^ (d + 2) * 2 ^ (d + 2) + 2 ^ (d + 1) - 1

/-! ## Storage engine (`src/storage/mod.rs`) -/

/-- Constant `HEADER_OFFSET` from `src/storage/mod.rs`. -/
def HEADER_OFFSET : Nat := 32

/-- The error taxonomy of the storage layer. `readFail` is a failed
byte-store read, `decodeFail` a structurally invalid stored record,
`lengthMismatch` the `ensure!` failure in `put_data`, and
`invariantPanic` stands for the final `panic!` branch of `data_offset`. -/
inductive StorageErr
  | readFail
  | decodeFail
  | lengthMismatch
  | invariantPanic
deriving DecidableEq, Repr

/-- Structure `DataOffset`: result of `Storage::data_offset`. -/
structure DataOffset where
  offset : Nat
  length : Nat
deriving DecidableEq, Repr

/-- Source `DataOffset::len`. -/
def DataOffset.len (d : DataOffset) : Nat := d.length

/-- The four regions of `Storage`, each a raw byte store. -/
structure Storage where
  tree : List Nat
  data : List Nat
  bitfield : List Nat
  signatures : List Nat
deriving DecidableEq, Repr

/-- Modelled from the spec: `sleep_parser::create_bitfield()` — the fixed
32-byte Bitfield region header (contents owned by the external
collaborator; only fixedness matters to this core). -/
def create_bitfield : List Nat := 5 :: 2 :: 87 :: 0 :: 0 :: List.replicate 27 0

/-- Modelled from the spec: `sleep_parser::create_signatures()` — the
fixed 32-byte Signatures region header. -/
def create_signatures : List Nat := 5 :: 2 :: 87 :: 0 :: 1 :: List.replicate 27 0

/-- Modelled from the spec: `sleep_parser::create_tree()` — the fixed
32-byte Tree region header. -/
def create_tree : List Nat := 5 :: 2 :: 87 :: 0 :: 2 :: List.replicate 27 0

/-- Source `Storage::new` over the four underlying byte stores: writes the
Bitfield, Signatures and Tree headers at offset 0; the Data region gets
no header. -/
def Storage.new (tree data bitfield signatures : List Nat) : Storage :=
  { tree := writeBytes tree 0 create_tree
    data := data
    bitfield := writeBytes bitfield 0 create_bitfield
    signatures := writeBytes signatures 0 create_signatures }

/-- Source `find_node` from `src/storage/mod.rs`: first cached node with the
given flat-tree index. -/
def find_node (nodes : List Node) (index : Nat) : Option Node :=
  match nodes with
  | [] => none
  | n :: rest => if n.index = index then some n else find_node rest index

/-- Source `Storage::get_node`: read the 40-byte record at
`HEADER_OFFSET + 40 * index` in the Tree region and decode it. -/
def Storage.get_node (s : Storage) (index : Nat) : Except StorageErr Node :=
  match readBytes s.tree (HEADER_OFFSET + 40 * index) 40 with
  | none => .error .readFail
  | some buf =>
    match nodeFromVec index buf with
    | none => .error .decodeFail
    | some node => .ok node

/-- Source `Storage::put_node`: serialize the node and write it at
`HEADER_OFFSET + 40 * node.index` in the Tree region. -/
def Storage.put_node (s : Storage) (node : Node) : Storage :=
  { s with tree := writeBytes s.tree (HEADER_OFFSET + 40 * node.index) (nodeToVec node) }

/-- Source `Storage::put_signature`: write the signature's 64 bytes at
`HEADER_OFFSET + 64 * index` in the Signatures region. -/
def Storage.put_signature (s : Storage) (index : Nat) (signature : List Nat) : Storage :=
  { s with signatures := writeBytes s.signatures (HEADER_OFFSET + 64 * index) signature }

/-- Source `Storage::put_bitfield`: write at `HEADER_OFFSET + offset` in the
Bitfield region. -/
def Storage.put_bitfield (s : Storage) (offset : Nat) (data : List Nat) : Storage :=
  { s with bitfield := writeBytes s.bitfield (HEADER_OFFSET + offset) data }

/-- The root-summation loop of `Storage::data_offset`: each full root is
fetched from the Tree region (the cache lookup for roots is commented out
in the source), its length added to the offset, and when `pending` hits
zero the block's own length is resolved — preferring `cached_nodes` —
and the pair returned. Falling off the list is the source's
Loop-executed-without-finding-max-value panic. -/
def dataOffsetLoop (s : Storage) (cached_nodes : List Node) (blk : Nat) :
    List Nat → Nat → Nat → Except StorageErr DataOffset
  | [], _, _ => .error .invariantPanic
  | root :: rest, offset, pending =>
    match s.get_node root with
    | .error e => .error e
    | .ok node =>
      let offset := offset + node.len
      let pending := pending - 1
      if pending > 0 then dataOffsetLoop s cached_nodes blk rest offset pending
      else
        match find_node cached_nodes blk with
        | some n => .ok ⟨offset, n.len⟩
        | none =>
          match s.get_node blk with
          | .error e => .error e
          | .ok n => .ok ⟨offset, n.len⟩

/-- Source `Storage::data_offset`: sum the lengths of the `full_roots (2 * index)`
nodes to find the block's byte offset in the Data region, and resolve the
block's own node length (cache first) as the byte length. -/
def Storage.data_offset (s : Storage) (index : Nat) (cached_nodes : List Node) :
    Except StorageErr DataOffset :=
  let roots := full_roots (2 * index)
  let pending := roots.length
  let blk := 2 * index
  if pending = 0 then
    match find_node cached_nodes blk with
    | some n => .ok ⟨0, n.len⟩
    | none =>
      match s.get_node blk with
      | .error e => .error e
      | .ok n => .ok ⟨0, n.len⟩
  else dataOffsetLoop s cached_nodes blk roots 0 pending

/-- Source `Storage::put_data`: no-op success on empty `data`; otherwise compute
the target offset, fail with a length mismatch when the tree-derived
length disagrees with `data.len()`, else write `data` at that offset in
the Data region. -/
def Storage.put_data (s : Storage) (index : Nat) (data : List Nat) (nodes : List Node) :
    Except StorageErr Unit × Storage :=
  if data.isEmpty then (.ok (), s)
  else
    match s.data_offset index nodes with
    | .error e => (.error e, s)
    | .ok off =>
      if off.len = data.length then
        (.ok (), { s with data := writeBytes s.data off.offset data })
      else (.error .lengthMismatch, s)

/-- Source `Storage::get_data`: compute the offset with an empty cached-nodes
list and read exactly that many bytes from the Data region. -/
def Storage.get_data (s : Storage) (index : Nat) : Except StorageErr (List Nat) :=
  match s.data_offset index [] with
  | .error e => .error e
  | .ok off =>
    match readBytes s.data off.offset off.len with
    | none => .error .readFail
    | some bytes => .ok bytes

/-! ## The spec-side offset algorithm, for comparison

The specification's words for the offset algorithm say every node length —
the full roots' as well as the block's own — is "read from
recently-produced-but-not-yet-flushed nodes when available (`recent_nodes`
...) or else fetched from the *Tree* region via `get_node`". The following
definitions follow those words; `Storage.data_offset` above follows the
source. -/

/-- Follows the spec's words: resolve a node's length, preferring the
recent-nodes cache, only otherwise reading the Tree region. -/
def specResolveLen (s : Storage) (cached_nodes : List Node) (i : Nat) :
    Except StorageErr Nat :=
  match find_node cached_nodes i with
  | some n => .ok n.len
  | none => (s.get_node i).map Node.len

/-- Follows the spec's words: the sum of the resolved lengths of a list of
full roots. -/
def specSumRoots (s : Storage) (cached_nodes : List Node) :
    List Nat → Except StorageErr Nat
  | [] => .ok 0
  | r :: rest =>
    match specResolveLen s cached_nodes r with
    | .error e => .error e
    | .ok l => (specSumRoots s cached_nodes rest).map (l + ·)

/-- Follows the spec's words for `data_offset`: offset is the sum of the
cache-first-resolved lengths of `full_roots (2 * index)`, length is the
cache-first-resolved length of the block's own node. -/
def data_offset_spec (s : Storage) (index : Nat) (cached_nodes : List Node) :
    Except StorageErr DataOffset :=
  match specSumRoots s cached_nodes (full_roots (2 * index)) with
  | .error e => .error e
  | .ok off =>
    match specResolveLen s cached_nodes (2 * index) with
    | .error e => .error e
    | .ok len => .ok ⟨off, len⟩

/-! ## Merkle accumulator (`src/crypto`, not in the sources) -/

/-- Modelled from the spec: the external digest primitive. Only determinism
and the fixed 32-byte output length matter to the claims below, so any
fixed computable function serves as the model. -/
def digest (input : List Nat) : List Nat :=
  List.replicate 32 (input.foldl (fun a b => (a * 31 + b) % 251) 7)

/-- Modelled from the spec: combining two sibling roots into a parent node
(hash of the children's hashes and encoded lengths, length the sum of the
children's lengths). -/
def parentNode (left right : Node) : Node :=
  { index := flatParent left.index
    length := left.length + right.length
    hash := digest (left.hash ++ right.hash ++ encodeBE 8 left.length ++ encodeBE 8 right.length) }

/-- Modelled from the spec: the Merkle accumulator state — the pending
roots (most recent first) and the number of blocks consumed. -/
structure Merkle where
  roots : List Node
  blocks : Nat
deriving DecidableEq, Repr

/-- Modelled from the spec: `Merkle::new()`, the empty accumulator. -/
def Merkle.new : Merkle := ⟨[], 0⟩

/-- Modelled from the spec: the carry-propagation loop of the accumulator —
while the two most recent pending roots are flat-tree siblings, replace
them by their parent, recording each parent created. The fuel is the
pending-roots count, which bounds the number of combinations. -/
def combineAux : Nat → List Node → List Node → List Node × List Node
  | 0, roots, nodes => (roots, nodes)
  | fuel + 1, roots, nodes =>
    match roots with
    | right :: left :: rest =>
      if flatParent left.index = flatParent right.index then
        let p := parentNode left right
        combineAux fuel (p :: rest) (nodes ++ [p])
      else (roots, nodes)
    | _ => (roots, nodes)

/-- Modelled from the spec: `Merkle::next(data)` — push the leaf node for
the block (index `2 * blocks`, length the byte count, hash of the raw
bytes), combine siblings, and return every node created this call in
creation order together with the new accumulator state. -/
def Merkle.next (m : Merkle) (data : List Nat) : List Node × Merkle :=
  let leaf : Node := ⟨2 * m.blocks, data.length, digest data⟩
  let (roots, nodes) := combineAux (m.roots.length + 1) (leaf :: m.roots) [leaf]
  (nodes, ⟨roots, m.blocks + 1⟩)

/-! ## Feed (`src/lib.rs`) -/

/-- The append-only log structure of `src/lib.rs` (the key pair plays no
role in the embedded operations). -/
structure Feed where
  merkle : Merkle
  storage : Storage
  byte_length : Nat
deriving DecidableEq, Repr

/-- How a call to `Feed::append` ends: with a propagated storage error, or
at the `unimplemented!()` panic on the source's final line. The source has
no successful return path. -/
inductive AppendOutcome
  | err (e : StorageErr)
  | panicked
deriving DecidableEq, Repr

/-- Source `Feed::with_storage`: fresh accumulator, `byte_length = 0`. -/
def Feed.with_storage (storage : Storage) : Feed := ⟨Merkle.new, storage, 0⟩

/-- Source `Feed::append`, translated statement by statement: run the
accumulator (mutating it immediately), call `put_data` with
`off = byte_length + 0` as its index argument, propagate its error if any,
then `put_node` every new node in creation order, advance `byte_length` by
`data.len()`, and finally hit `unimplemented!()`. The byte-store writes of
the in-memory backend are total, so the `?` on `put_node` never fires. -/
def Feed.append (f : Feed) (data : List Nat) : AppendOutcome × Feed :=
  let (nodes, m) := f.merkle.next data
  let off := f.byte_length + 0
  match f.storage.put_data off data nodes with
  | (.error e, s) => (.err e, ⟨m, s, f.byte_length⟩)
  | (.ok _, s1) =>
    let s2 := nodes.foldl (fun st n => st.put_node n) s1
    (.panicked, ⟨m, s2, f.byte_length + data.length⟩)

/-- How a call to `Feed::get` ends. The source's return type is
`Option<&[u8]>`, whose `None` is the absence indicator. -/
inductive GetOutcome
  | panicked
  | result (r : Option (List Nat))
deriving DecidableEq, Repr

/-- Source `Feed::get`: the body is `unimplemented!()` — it panics on
every input. -/
def Feed.get (_f : Feed) (_index : Nat) : GetOutcome := .panicked

/-! ## Concrete stores and feeds used by witnesses and counterexamples -/

set_option maxRecDepth 100000

/-- An all-zero 32-byte digest used in concrete nodes. -/
def hz32 : List Nat := List.replicate 32 0

/-- A freshly constructed storage over four empty byte stores. -/
def stor0 : Storage := Storage.new [] [] [] []

/-- Fresh storage whose Tree region records node 0 with length 7. -/
def storNode7 : Storage := stor0.put_node ⟨0, 7, hz32⟩

/-- Storage whose Tree region records node 0 with length 7 and node 2
with length 3. -/
def storC1 : Storage := storNode7.put_node ⟨2, 3, hz32⟩

/-- A recent-nodes cache holding node 0 with length 5 — disagreeing with
the length 7 that `storC1`'s Tree region records for node 0. -/
def cachedC1 : List Node := [⟨0, 5, hz32⟩]

/-- Fresh storage whose Tree region records node 0 with length 1. -/
def storW : Storage := stor0.put_node ⟨0, 1, hz32⟩

/-- A concrete node for the record-addressing witness. -/
def nodeW : Node := ⟨1, 5, hz32⟩

/-- A concrete 64-byte signature for the record-addressing witness. -/
def sigW : List Nat := List.replicate 64 7

/-- A feed over fresh storage, as `Feed::with_storage` builds it. -/
def feedFresh : Feed := Feed.with_storage stor0

/-! ## The claims -/

/-- C1: the claim says `data_offset` reads every needed node length —
the full roots' included — from `recent_nodes` when a node with that index
is cached, falling back to `get_node` only otherwise. The source checks
the cache only for the block's own node; for the roots the cache lookup is
commented out (its `FIXME` says the intended behaviour is cache first), so
a cached root length is ignored. Concretely: for block 1 with node 0
cached at length 5 but recorded in the Tree region at length 7, the code
returns offset 7 while the spec's words give offset 5. -/
theorem data_offset_ignores_cached_root_lengths :
    Storage.data_offset storC1 1 cachedC1 = .ok ⟨7, 3⟩ ∧
    data_offset_spec storC1 1 cachedC1 = .ok ⟨5, 3⟩ ∧
    Storage.data_offset storC1 1 cachedC1 ≠ data_offset_spec storC1 1 cachedC1 := by
  refine ⟨rfl, rfl, ?_⟩
  intro h
  rw [show Storage.data_offset storC1 1 cachedC1 = .ok ⟨7, 3⟩ from rfl,
    show data_offset_spec storC1 1 cachedC1 = .ok ⟨5, 3⟩ from rfl] at h
  simp at h

/-- C2: when `data` is non-empty and the tree-derived length disagrees with
`data.len()`, `put_data` fails with the length-mismatch error and leaves
every storage region unchanged. -/
theorem put_data_length_mismatch (s : Storage) (index : Nat) (data : List Nat)
    (nodes : List Node) (off : DataOffset)
    (hne : data ≠ [])
    (hoff : s.data_offset index nodes = .ok off)
    (hlen : off.len ≠ data.length) :
    s.put_data index data nodes = (.error .lengthMismatch, s) := by
  unfold Storage.put_data
  rw [if_neg (by simp [hne]), hoff]
  dsimp only
  rw [if_neg hlen]

/-- Witness for C2: writing the single byte `[1]` for block 0 when the
Tree region records length 7 for node 0 fails with a length mismatch and
changes nothing. -/
theorem put_data_length_mismatch_witness :
    Storage.put_data storNode7 0 [1] [] = (.error .lengthMismatch, storNode7) :=
  put_data_length_mismatch storNode7 0 [1] [] ⟨0, 7⟩ (by decide) rfl (by decide)

/-- C3: for block 0 `full_roots (2 * 0)` is empty and `data_offset`
returns offset 0 with the block's own node length, taken from the cached
recent nodes when a node with index 0 is present there, else read from
the Tree region. -/
theorem data_offset_block_zero (s : Storage) (cached_nodes : List Node) :
    full_roots (2 * 0) = [] ∧
    s.data_offset 0 cached_nodes =
      (match find_node cached_nodes 0 with
       | some n => .ok ⟨0, n.len⟩
       | none =>
         match s.get_node 0 with
         | .error e => .error e
         | .ok n => .ok ⟨0, n.len⟩) :=
  ⟨rfl, rfl⟩

/-- Counterexample to C4 as stated: over fresh storage, `put_data` for
block 0 with bytes `[9]` succeeds when the block's node (length 1) is
supplied in the recent-nodes cache, but `get_data 0` — which recomputes
the offset with an empty cache — fails with a read error because the Tree
region has no record for node 0, instead of yielding `[9]`. -/
theorem put_get_roundtrip_fails_uncommitted :
    (Storage.put_data stor0 0 [9] [⟨0, 1, hz32⟩]).1 = .ok () ∧
    ((Storage.put_data stor0 0 [9] [⟨0, 1, hz32⟩]).2).get_data 0 = .error .readFail ∧
    (Except.error StorageErr.readFail : Except StorageErr (List Nat)) ≠ .ok [9] := by
  refine ⟨rfl, rfl, ?_⟩
  simp

/-- C4 as amended: after a successful `put_data(i, bytes, nodes)` with
non-empty `bytes`, `get_data i` returns exactly `bytes`, provided the
offset computation with an empty cache on the resulting storage agrees
with the one `put_data` used (as it does once the nodes that determine
block `i`'s offset and length are persisted in the Tree region). -/
theorem put_get_roundtrip (s s' : Storage) (index : Nat) (data : List Nat)
    (nodes : List Node)
    (hne : data ≠ [])
    (hput : s.put_data index data nodes = (.ok (), s'))
    (hagree : s'.data_offset index [] = s.data_offset index nodes) :
    s'.get_data index = .ok data := by
  unfold Storage.put_data at hput
  rw [if_neg (by simp [hne])] at hput
  cases hoff : s.data_offset index nodes with
  | error e =>
    rw [hoff] at hput
    simp at hput
  | ok off =>
    rw [hoff] at hput
    dsimp only at hput
    by_cases hlen : off.len = data.length
    · rw [if_pos hlen] at hput
      have hs' : s' = { s with data := writeBytes s.data off.offset data } := by
        have := congrArg Prod.snd hput
        simpa using this.symm
      unfold Storage.get_data
      rw [hagree, hoff, hs']
      have : readBytes (writeBytes s.data off.offset data) off.offset off.len = some data := by
        rw [hlen]
        exact readBytes_writeBytes s.data off.offset data
      simp [this]
    · rw [if_neg hlen] at hput
      simp at hput

/-- Witness for C4's amended claim: with node 0 (length 1) already in the
Tree region, `put_data 0 [9]` succeeds and `get_data 0` returns `[9]`. -/
theorem put_get_roundtrip_witness :
    Storage.get_data { storW with data := [9] } 0 = .ok [9] :=
  put_get_roundtrip storW { storW with data := [9] } 0 [9] [] (by decide) rfl rfl

/-- C5: Tree records live at `HEADER_OFFSET + 40 * index` (32 + 40·n) and
are 40 bytes — `put_node` writes the 40-byte record there, `get_node`
reads exactly those 40 bytes back and decodes the node — and
`put_signature` writes the 64 signature bytes at `HEADER_OFFSET + 64 *
index` (32 + 64·s). -/
theorem record_addressing (s : Storage) (node : Node) (sidx : Nat) (sig : List Nat)
    (hh : node.hash.length = 32) (hl : node.length < 2 ^ 64)
    (hsig : sig.length = 64) :
    (nodeToVec node).length = 40 ∧
    readBytes (s.put_node node).tree (HEADER_OFFSET + 40 * node.index) 40
      = some (nodeToVec node) ∧
    (s.put_node node).get_node node.index = .ok node ∧
    readBytes (s.put_signature sidx sig).signatures (HEADER_OFFSET + 64 * sidx) 64
      = some sig := by
  have h40 : (nodeToVec node).length = 40 := length_nodeToVec node hh
  have hread : readBytes (s.put_node node).tree (HEADER_OFFSET + 40 * node.index) 40
      = some (nodeToVec node) := by
    have h := readBytes_writeBytes s.tree (HEADER_OFFSET + 40 * node.index) (nodeToVec node)
    rw [h40] at h
    exact h
  refine ⟨h40, hread, ?_, ?_⟩
  · unfold Storage.get_node
    rw [hread]
    dsimp only
    rw [nodeFromVec_nodeToVec node hh hl]
  · have h := readBytes_writeBytes s.signatures (HEADER_OFFSET + 64 * sidx) sig
    rw [hsig] at h
    exact h

/-- Witness for C5 at node `⟨1, 5, hz32⟩`, signature slot 2 and a concrete
64-byte signature, over fresh storage. -/
theorem record_addressing_witness :
    (nodeToVec nodeW).length = 40 ∧
    readBytes (stor0.put_node nodeW).tree (HEADER_OFFSET + 40 * nodeW.index) 40
      = some (nodeToVec nodeW) ∧
    (stor0.put_node nodeW).get_node nodeW.index = .ok nodeW ∧
    readBytes (stor0.put_signature 2 sigW).signatures (HEADER_OFFSET + 64 * 2) 64
      = some sigW :=
  record_addressing stor0 nodeW 2 sigW (by decide) (by decide) (by decide)

/-- C6: construction stamps the fixed Bitfield, Signatures and Tree
headers at offset 0, touches no record bytes (the Data region is returned
untouched), and re-constructing over the byte stores a first construction
left behind reproduces exactly the same stored bytes. -/
theorem storage_new_headers (tree data bitfield signatures : List Nat) :
    (Storage.new tree data bitfield signatures).data = data ∧
    readBytes (Storage.new tree data bitfield signatures).bitfield 0 32
      = some create_bitfield ∧
    readBytes (Storage.new tree data bitfield signatures).signatures 0 32
      = some create_signatures ∧
    readBytes (Storage.new tree data bitfield signatures).tree 0 32
      = some create_tree ∧
    Storage.new (Storage.new tree data bitfield signatures).tree
        (Storage.new tree data bitfield signatures).data
        (Storage.new tree data bitfield signatures).bitfield
        (Storage.new tree data bitfield signatures).signatures
      = Storage.new tree data bitfield signatures := by
  refine ⟨rfl, ?_, ?_, ?_, ?_⟩
  · rw [show (32 : Nat) = create_bitfield.length from rfl]
    exact readBytes_writeBytes bitfield 0 create_bitfield
  · rw [show (32 : Nat) = create_signatures.length from rfl]
    exact readBytes_writeBytes signatures 0 create_signatures
  · rw [show (32 : Nat) = create_tree.length from rfl]
    exact readBytes_writeBytes tree 0 create_tree
  · unfold Storage.new
    simp only [writeBytes_idem]

/-- C7: the claim says `append` either succeeds or fails leaving the
persisted state unchanged. The source's `append` ends in
`unimplemented!()` — it has no success path at all — and reaches that
panic only after `put_data`, the `put_node` loop and the `byte_length`
update have already run: appending `[1]` to a fresh feed panics, yet the
Data region (empty before) now holds `[1]` and `byte_length` moved from 0
to 1. -/
theorem append_panics_after_persisting :
    (feedFresh.append [1]).1 = .panicked ∧
    ((feedFresh.append [1]).2).storage.data = [1] ∧
    ((feedFresh.append [1]).2).byte_length = 1 ∧
    feedFresh.storage.data = [] ∧ feedFresh.byte_length = 0 :=
  ⟨rfl, rfl, rfl, rfl, rfl⟩

/-- C8: `put_data` with empty bytes is a no-op success for every storage
state — including states where the offset computation would fail or
produce a nonzero length, since the empty-check returns before any read
or the length-mismatch check. -/
theorem put_data_empty_noop (s : Storage) (index : Nat) (nodes : List Node) :
    s.put_data index [] nodes = (.ok (), s) := rfl

/-- C9: the claim says `Feed::get` returns the absence indicator for
out-of-range indices and delegates to `get_data` below the block count.
The source's body is `unimplemented!()`: every call panics, so `get`
never returns the absence indicator and never consults `get_data`. -/
theorem feed_get_always_panics (f : Feed) (index : Nat) :
    f.get index = .panicked ∧ f.get index ≠ .result none :=
  ⟨rfl, by simp [Feed.get]⟩

/-- Helper for C10: `get_node` fails only with a read or decode error,
never with the invariant panic. -/
theorem get_node_ne_panic (s : Storage) (i : Nat) :
    s.get_node i ≠ .error .invariantPanic := by
  unfold Storage.get_node
  split
  · simp
  · split
    · simp
    · simp

/-- Helper for C10: started with `pending` equal to the number of
remaining roots, the summation loop returns on the last root — `pending`
reaches zero exactly on the final iteration — so the fall-through panic
is unreachable; errors come only from `get_node`. -/
theorem dataOffsetLoop_ne_panic (s : Storage) (cached_nodes : List Node) (blk : Nat)
    (roots : List Nat) (offset : Nat) (hne : roots ≠ []) :
    dataOffsetLoop s cached_nodes blk roots offset roots.length
      ≠ .error .invariantPanic := by
  induction roots generalizing offset with
  | nil => exact absurd rfl hne
  | cons root rest ih =>
    unfold dataOffsetLoop
    cases hr : s.get_node root with
    | error e =>
      have := get_node_ne_panic s root
      rw [hr] at this
      simpa using this
    | ok node =>
      simp only [List.length_cons, Nat.add_sub_cancel]
      by_cases hrest : rest.length > 0
      · rw [if_pos hrest]
        exact ih (offset + node.len) (by intro h; rw [h] at hrest; simp at hrest)
      · rw [if_neg hrest]
        cases find_node cached_nodes blk with
        | some n => simp
        | none =>
          cases hb : s.get_node blk with
          | error e =>
            have := get_node_ne_panic s blk
            rw [hb] at this
            simpa using this
          | ok n => simp

/-- C10: `data_offset` never reaches its final "Loop executed without
finding max value" panic — for every storage state, block index and
cache it returns a `DataOffset` or propagates a `get_node` failure. -/
theorem data_offset_never_panics (s : Storage) (index : Nat)
    (cached_nodes : List Node) :
    s.data_offset index cached_nodes ≠ .error .invariantPanic := by
  unfold Storage.data_offset
  by_cases h : (full_roots (2 * index)).length = 0
  · rw [if_pos h]
    cases find_node cached_nodes (2 * index) with
    | some n => simp
    | none =>
      cases hb : s.get_node (2 * index) with
      | error e =>
        have := get_node_ne_panic s (2 * index)
        rw [hb] at this
        simpa using this
      | ok n => simp
  · rw [if_neg h]
    exact dataOffsetLoop_ne_panic s cached_nodes (2 * index) (full_roots (2 * index)) 0
      (by intro hnil; rw [hnil] at h; simp at h)

end Hypercore
